import Mathlib

/-!
# Verification of the `llm-tracelab` recording/replay proxy

A shallow embedding of the core of `llm-tracelab` (a recording/replay proxy
for LLM-style HTTP APIs) together with proofs about its behaviour.

Modelling conventions:
* File and stream bytes are modelled as `List Char` (the recorded content is
  textual; one character stands for one byte).
* Go's `int`/`int64` length counters are modelled as `Nat` (they are byte
  counts, always non-negative and far from overflow); header fields that can
  carry arbitrary JSON-decoded integers are modelled as `Int`.
* `encoding/json` marshalling/unmarshalling of rich structures is kept
  abstract: functions such as `json.Unmarshal` are parameters of the
  embedded operations, constrained only where the source constrains them.
* `os.File` is modelled by `MFile`: contents, current offset, closed flag.
-/

/-! ## Generic list/string utilities used by the embedding -/

/-- Boolean test that `needle` starts `hay` (embeds `strings.HasPrefix` /
`bytes.HasPrefix`). -/
def startsWithL (needle hay : List Char) : Bool :=
  match needle, hay with
  | [], _ => true
  | _ :: _, [] => false
  | a :: as, b :: bs => a == b && startsWithL as bs

/-- Boolean substring containment (embeds `strings.Contains` /
`bytes.Contains`): does `needle` occur contiguously inside `hay`? -/
def containsSub (needle hay : List Char) : Bool :=
  match hay with
  | [] => needle.isEmpty
  | _ :: t => startsWithL needle hay || containsSub needle t

/-- `strings.Contains hay needle` at `String` level. -/
def containsStr (hay needle : String) : Bool :=
  containsSub needle.data hay.data

/-- White-space test used by `strings.TrimSpace` (ASCII part of
`unicode.IsSpace`). -/
def isSpc (c : Char) : Bool :=
  c == ' ' || c == '\t' || c == '\n' || c == '\r' || c == '\x0b' || c == '\x0c'

/-- Trim leading white space. -/
def trimLeftSpc (l : List Char) : List Char := l.dropWhile isSpc

/-- Trim trailing white space. -/
def trimRightSpc (l : List Char) : List Char := (l.reverse.dropWhile isSpc).reverse

/-- `strings.TrimSpace`. -/
def trimSpace (l : List Char) : List Char := trimRightSpc (trimLeftSpc l)

/-- Split a buffer into the complete (newline-terminated) lines and the
remaining partial line, exactly as the sniffer's
`for ... bytes.IndexByte(lineBuf, '\n')` loop consumes it: the first
component lists the contents of each line (without the `'\n'`), the second
is the tail left in the buffer. -/
def splitLines : List Char → List (List Char) × List Char
  | [] => ([], [])
  | b :: rest =>
    let sp := splitLines rest
    if b = '\n' then ([] :: sp.1, sp.2)
    else
      match sp.1 with
      | [] => ([], b :: sp.2)
      | l :: ls => ((b :: l) :: ls, sp.2)

/-! ## HTTP headers (`http.Header`)

A header map is a list of `(key, values)` pairs; `getH` embeds
`Header.Get` (first value of the key, `""` when absent), `setH` embeds
`Header.Set` (replace all values of the key by the single given value). -/

abbrev Headers := List (String × List String)

/-- `http.Header.Get`. -/
def getH : Headers → String → String
  | [], _ => ""
  | (k', vs) :: t, k => if k' = k then vs.headD "" else getH t k

/-- Raw lookup of the full value list of a key. -/
def lookupH : Headers → String → Option (List String)
  | [], _ => Option.none
  | (k', vs) :: t, k => if k' = k then Option.some vs else lookupH t k

/-- `http.Header.Set`. -/
def setH : Headers → String → String → Headers
  | [], k, v => [(k, [v])]
  | (k', vs) :: t, k, v => if k' = k then (k, [v]) :: t else (k', vs) :: setH t k v

/-! ## Recorder data model (`internal/recorder`) -/

/-- Fixed length of the back-patched header slot (`recorder.HeaderLen`). -/
def HeaderLen : Nat := 2048

/-- `recorder.UsageInfo`; `promptTokensDetails` models the optional
`prompt_tokens_details.cached_tokens`. -/
structure UsageInfo where
  promptTokens : Int
  completionTokens : Int
  totalTokens : Int
  promptTokensDetails : Option Int
deriving DecidableEq

/-- The Go zero value of `UsageInfo`. -/
def UsageInfo.zero : UsageInfo := ⟨0, 0, 0, Option.none⟩

/-- `recorder.LayoutInfo` (byte counts as `Nat`). -/
structure LayoutInfo where
  reqHeaderLen : Nat
  reqBodyLen : Nat
  resHeaderLen : Nat
  resBodyLen : Nat
  isStream : Bool
deriving DecidableEq

/-- `recorder.MetaData`. Wall-clock time is elided (no claim mentions it). -/
structure MetaData where
  requestID : String
  model : String
  url : String
  method : String
  statusCode : Int
  durationMs : Int
  ttftMs : Int
  clientIP : String
  contentLength : Int
  error : String
deriving DecidableEq

/-- `recorder.RecordHeader`. -/
structure RecordHeader where
  version : String
  meta : MetaData
  layout : LayoutInfo
  usage : UsageInfo
deriving DecidableEq

/-! ## A model of `os.File` -/

/-- File model: contents, current offset, closed flag. -/
structure MFile where
  data : List Char
  pos : Nat
  closed : Bool
deriving DecidableEq

/-- `File.Write`: overwrite/extend at the current offset; fails on a closed
file (as the real call does), returning the bytes written otherwise. -/
def fwrite (f : MFile) (bs : List Char) : MFile × Except String Nat :=
  if f.closed then (f, Except.error "write on closed file")
  else (⟨f.data.take f.pos ++ bs ++ f.data.drop (f.pos + bs.length),
         f.pos + bs.length, false⟩,
        Except.ok bs.length)

/-- `File.Seek(off, 0)`: fails on a closed file or a negative offset. -/
def fseek (f : MFile) (off : Int) : Except String MFile :=
  if f.closed then Except.error "seek on closed file"
  else if off < 0 then Except.error "negative seek offset"
  else Except.ok ⟨f.data, off.toNat, false⟩

/-- `File.Close` (idempotent on the handle state; the error is ignored by
the recorder). -/
def fclose (f : MFile) : MFile := ⟨f.data, f.pos, true⟩

/-! ## Recorder operations (`Recorder.PrepareLogFile` / `Recorder.UpdateLogFile`) -/

/-- The 2048-byte placeholder written by `PrepareLogFile`: spaces with a
final `'\n'`. -/
def padBlock : List Char := (List.replicate HeaderLen ' ').set (HeaderLen - 1) '\n'

/-- Go's `copy(dst, src)`: overwrite the start of `dst` with `src`,
truncating `src` to `dst`'s length. -/
def copyInto (dst src : List Char) : List Char :=
  src.take (min src.length dst.length) ++ dst.drop (min src.length dst.length)

/-- The 2048-byte block `UpdateLogFile` builds from the marshalled header
JSON: spaces, JSON copied in (truncated to 2047 bytes when longer), final
byte forced to `'\n'`. -/
def buildFinalBlock (jsonData : List Char) : List Char :=
  let finalBlock := List.replicate HeaderLen ' '
  let finalBlock :=
    if HeaderLen - 1 < jsonData.length then copyInto finalBlock (jsonData.take (HeaderLen - 1))
    else copyInto finalBlock jsonData
  finalBlock.set (HeaderLen - 1) '\n'

/-- `Recorder.UpdateLogFile`, given the marshalled header JSON
(`json.Marshal` cannot fail on `RecordHeader`): build the 2048-byte block,
seek to 0, overwrite, and close the file in all cases (the deferred
`info.File.Close()`); returns the handle state and the error, if any.
A `nil` file handle (`info.File == nil`) is the `Option.none` case. -/
def updateLogFile (jsonData : List Char) (file : Option MFile) : Option MFile × Option String :=
  match file with
  | Option.none => (Option.none, Option.none)
  | Option.some f =>
    let block := buildFinalBlock jsonData
    match fseek f 0 with
    | Except.error e => (Option.some (fclose f), Option.some e)
    | Except.ok f1 =>
      match fwrite f1 block with
      | (f2, Except.error e) => (Option.some (fclose f2), Option.some e)
      | (f2, Except.ok _) => (Option.some (fclose f2), Option.none)

/-- In-memory recording state: the open file plus the in-progress header
(`recorder.LogInfo`, with the path elided). -/
structure RecState where
  file : MFile
  header : RecordHeader

/-- `Recorder.PrepareLogFile` after the request dump has been produced:
create the file, write the 2048-byte placeholder, the request dump and the
raw request body, and initialise the header. Model-name extraction and the
dated directory path do not affect any claim and are summarised by the
`meta0` argument. -/
def prepareLogFile (reqDump bodyBytes : List Char) (meta0 : MetaData) : Except String RecState :=
  let f0 : MFile := ⟨[], 0, false⟩
  match fwrite f0 padBlock with
  | (_, Except.error e) => Except.error e
  | (f1, Except.ok _) =>
    match fwrite f1 reqDump with
    | (_, Except.error e) => Except.error e
    | (f2, Except.ok nHead) =>
      match fwrite f2 bodyBytes with
      | (_, Except.error e) => Except.error e
      | (f3, Except.ok nBody) =>
        Except.ok ⟨f3,
          ⟨"LLM_PROXY_V2",
           meta0,
           ⟨nHead, nBody, 0, 0, false⟩,
           UsageInfo.zero⟩⟩

/-- The stream test of `ModifyResponse`: Content-Type contains
`text/event-stream`, or the Transfer-Encoding header equals `chunked`. -/
def streamDetect (contentType transferEncoding : String) : Bool :=
  containsStr contentType "text/event-stream" || transferEncoding == "chunked"

/-- `rp.ModifyResponse`: write the `'\n'` delimiter (result ignored), write
the dumped response status line + headers recording the bytes written into
`layout.res_header_len`, decide `is_stream`, and hand the body to the
sniffer. Returns the updated state and the `isStream` flag given to the
`UsageSniffer`. -/
def modifyResponse (st : RecState) (resHeaderBytes : List Char)
    (contentType transferEncoding : String) : RecState × Bool :=
  let f1 := (fwrite st.file ['\n']).1
  let wr := fwrite f1 resHeaderBytes
  let n : Nat := match wr.2 with | Except.ok k => k | Except.error _ => 0
  let isStream := streamDetect contentType transferEncoding
  let lay := st.header.layout
  let lay1 : LayoutInfo :=
    ⟨lay.reqHeaderLen, lay.reqBodyLen, n, lay.resBodyLen,
     if isStream then true else lay.isStream⟩
  (⟨wr.1, ⟨st.header.version, st.header.meta, lay1, st.header.usage⟩⟩, isStream)

/-- The byte-accounting part of `UsageSniffer.Read`: append the chunk to the
record file and add the bytes actually written to `layout.res_body_len`
(only on a successful write, as in the source). Usage sniffing operates on
the same bytes and is modelled separately by `runSniff`. -/
def snifferRead (st : RecState) (chunk : List Char) : RecState :=
  match fwrite st.file chunk with
  | (f1, Except.ok w) =>
    let lay := st.header.layout
    ⟨f1, ⟨st.header.version, st.header.meta,
          ⟨lay.reqHeaderLen, lay.reqBodyLen, lay.resHeaderLen, lay.resBodyLen + w, lay.isStream⟩,
          st.header.usage⟩⟩
  | (f1, Except.error _) => ⟨f1, st.header⟩

/-- One full successful recording: `PrepareLogFile`, then `ModifyResponse`,
then the streamed response body chunks through the sniffer, then the
`UpdateLogFile` back-patch. `marshal` abstracts `json.Marshal` of the final
header. Returns the final file handle state, the final header, the
`UpdateLogFile` error and the sniffer's `isStream` flag. -/
def recordRun (marshal : RecordHeader → List Char)
    (reqDump bodyBytes resHeaderBytes : List Char) (meta0 : MetaData)
    (contentType transferEncoding : String)
    (chunks : List (List Char)) :
    Except String (Option MFile × RecordHeader × Option String × Bool) :=
  match prepareLogFile reqDump bodyBytes meta0 with
  | Except.error e => Except.error e
  | Except.ok st0 =>
    let mr := modifyResponse st0 resHeaderBytes contentType transferEncoding
    let st2 := chunks.foldl snifferRead mr.1
    let upd := updateLogFile (marshal st2.header) (Option.some st2.file)
    Except.ok (upd.1, st2.header, upd.2, mr.2)

/-! ## The SSE usage sniffer (`UsageSniffer.sniffStream`) -/

/-- The fast-filter needle: the literal bytes `"usage"` including the
quotes. -/
def usageNeedle : List Char := '"' :: 'u' :: 's' :: 'a' :: 'g' :: 'e' :: '"' :: []

/-- The SSE prefix `data:`. -/
def dataNeedle : List Char := 'd' :: 'a' :: 't' :: 'a' :: ':' :: []

/-- Sniffer state: the line buffer and the usage destination
(`*s.Usage`, zero-initialised in the header). -/
structure SniffState where
  lineBuf : List Char
  usage : UsageInfo
deriving DecidableEq

/-- Processing of one complete line by `sniffStream`: skip it unless it
contains `"usage"`; strip the `data:` prefix, trim, decode
(`dec` embeds `json.Unmarshal` into `struct { Usage *recorder.UsageInfo }`,
returning the usage object when unmarshalling succeeds with a non-nil
`usage` member); overwrite the destination when `total_tokens > 0`. -/
def stepLine (dec : List Char → Option UsageInfo) (u : UsageInfo) (line : List Char) : UsageInfo :=
  if containsSub usageNeedle line = false then u
  else if startsWithL dataNeedle line then
    match dec (trimSpace (line.drop 5)) with
    | Option.some u' => if 0 < u'.totalTokens then u' else u
    | Option.none => u
  else u

/-- One `sniffStream(chunk)` call: append to the line buffer, keep only the
trailing 64 KiB on overflow, then consume every complete line. -/
def processChunk (dec : List Char → Option UsageInfo) (st : SniffState) (chunk : List Char) :
    SniffState :=
  let buf := st.lineBuf ++ chunk
  let buf2 := if 65536 < buf.length then buf.drop (buf.length - 65536) else buf
  let sp := splitLines buf2
  ⟨sp.2, sp.1.foldl (stepLine dec) st.usage⟩

/-- A whole streamed response delivered as a sequence of chunks, starting
from the zero usage value. -/
def runSniff (dec : List Char → Option UsageInfo) (chunks : List (List Char)) : SniffState :=
  chunks.foldl (processChunk dec) ⟨[], UsageInfo.zero⟩

/-- A line qualifies when it is a `data:` line whose payload decodes to a
usage object with `total_tokens > 0` (the claim's notion of a
usage-carrying SSE line). -/
def qualifiesLine (dec : List Char → Option UsageInfo) (line : List Char) : Bool :=
  startsWithL dataNeedle line &&
    match dec (trimSpace (line.drop 5)) with
    | Option.some u' => decide (0 < u'.totalTokens)
    | Option.none => false

/-- The usage object carried by a (qualifying) line. -/
def usageOfLine (dec : List Char → Option UsageInfo) (line : List Char) : UsageInfo :=
  (dec (trimSpace (line.drop 5))).getD UsageInfo.zero

/-- The run never triggers the 64 KiB line-buffer truncation: at every
step, the retained partial line plus the incoming chunk fits. -/
def noOverflow : List Char → List (List Char) → Bool
  | _, [] => true
  | buf, c :: cs =>
    decide (buf.length + c.length ≤ 65536) && noOverflow (splitLines (buf ++ c)).2 cs

/-! ## Replay transport (`pkg/replay.Transport.RoundTrip`) -/

/-- `replay.fileHeader`: the layout part of the record header as decoded by
the replay transport (`int64` fields as `Int`). -/
structure ReplayFileHeader where
  version : String
  reqHeaderLen : Int
  reqBodyLen : Int
  resHeaderLen : Int
  resBodyLen : Int
deriving DecidableEq

/-- `Transport.RoundTrip` over the record-file contents. `decodeHeader`
embeds `json.Unmarshal` into `fileHeader`; `readResponse` embeds
`http.ReadResponse` applied to the rest of the file. Reading fewer than
2048 header bytes (`io.ReadFull`) is an error; then the first `'\n'`
inside those 2048 bytes delimits the header JSON; the response is parsed
from offset `2048 + req_header_len + req_body_len + 1`. -/
def roundTrip {α : Type} (decodeHeader : List Char → Option ReplayFileHeader)
    (readResponse : List Char → Option α) (file : List Char) : Except String α :=
  if file.length < HeaderLen then Except.error "replay: failed to read header block"
  else
    let headerData := file.take HeaderLen
    match headerData.findIdx? (fun c => c == '\n') with
    | Option.none => Except.error "replay: invalid header format (no newline found)"
    | Option.some idx =>
      match decodeHeader (headerData.take idx) with
      | Option.none => Except.error "replay: invalid header json"
      | Option.some meta =>
        let respOffset : Int := (HeaderLen : Int) + meta.reqHeaderLen + meta.reqBodyLen + 1
        if respOffset < 0 then Except.error "replay: seek failed"
        else
          match readResponse (file.drop respOffset.toNat) with
          | Option.none => Except.error "replay: failed to parse http response"
          | Option.some resp => Except.ok resp

/-! ## Chaos injector (`internal/chaos.Manager.Evaluate`) -/

/-- `config.ChaosRule` (`rate` and random draws as rationals; `delay` in
nanoseconds). -/
structure ChaosRule where
  model : String
  rate : ℚ
  action : String
  delay : Nat
  statusCode : Int
  message : String
deriving DecidableEq

/-- `chaos.Result`. -/
structure ChaosResult where
  shouldInject : Bool
  action : String
  delay : Nat
  statusCode : Int
  message : String
  ruleDescription : String
deriving DecidableEq

/-- The zero `Result` returned when nothing fires. -/
def ChaosResult.noInject : ChaosResult := ⟨false, "", 0, 0, "", ""⟩

/-- `strings.EqualFold`, modelled as case-insensitive comparison via
lower-casing. -/
def equalFold (a b : String) : Bool := a.toLower == b.toLower

/-- The default filling applied to a firing rule's result: status 500 and
message "Chaos Injection Error" for an `error` action with unset fields. -/
def applyChaosDefaults (res : ChaosResult) : ChaosResult :=
  let res1 :=
    if res.action = "error" ∧ res.statusCode = 0 then
      ⟨res.shouldInject, res.action, res.delay, 500, res.message, res.ruleDescription⟩
    else res
  if res1.action = "error" ∧ res1.message = "" then
    ⟨res1.shouldInject, res1.action, res1.delay, res1.statusCode, "Chaos Injection Error",
     res1.ruleDescription⟩
  else res1

/-- The rule loop of `Manager.Evaluate`: skip rules whose model neither is
`"*"` nor case-insensitively matches; for a matching rule draw a uniform
`[0,1)` sample (`draw i`, one fresh sample per matching rule) and fire when
it is below `rate`. -/
def evalRules (modelName : String) (draw : Nat → ℚ) : List ChaosRule → Nat → ChaosResult
  | [], _ => ChaosResult.noInject
  | r :: rs, i =>
    if r.model ≠ "*" ∧ ¬ equalFold r.model modelName = true then
      evalRules modelName draw rs i
    else if draw i < r.rate then
      applyChaosDefaults
        ⟨true, r.action, r.delay, r.statusCode, r.message,
         "Rule[Model=" ++ r.model ++ ", Action=" ++ r.action ++ "]"⟩
    else evalRules modelName draw rs (i + 1)

/-- `Manager.Evaluate`. -/
def chaosEvaluate (enabled : Bool) (rules : List ChaosRule) (modelName : String)
    (draw : Nat → ℚ) : ChaosResult :=
  if enabled = true then evalRules modelName draw rules 0 else ChaosResult.noInject

/-- Outcome of one proxied request as seen by the client and the record
header: whether the upstream was called, the status written to the client,
the status back-patched into the record header
(`logInfo.Header.Meta.StatusCode`, captured via the instrumented writer),
and the client body. -/
structure HandlerOutcome where
  upstreamCalled : Bool
  clientStatus : Int
  headerStatus : Int
  clientBody : String
deriving DecidableEq

/-- Modelled from the spec: the chaos branch of `Handler.ServeHTTP` is
elided in the source (the `error` action's handling is summarised by a
comment). Per the specification, a firing `error` rule makes the handler
respond locally with the rule's status code and message and skip the
upstream call entirely, while `delay` (and no injection) forwards to the
upstream; the deferred header back-patch records the status the client was
sent. -/
def handleWithChaos (res : ChaosResult) (upstreamStatus : Int) (upstreamBody : String) :
    HandlerOutcome :=
  if res.shouldInject = true ∧ res.action = "error" then
    ⟨false, res.statusCode, res.statusCode, res.message⟩
  else ⟨true, upstreamStatus, upstreamStatus, upstreamBody⟩

/-! ## JSON values and the stream-options injector (`ensureStreamOptions`) -/

/-- A generic JSON value (the `map[string]interface{}` world of the
injector); objects are association lists as produced by `json.Unmarshal`
(no duplicate keys), numbers keep their literal text. -/
inductive Json where
  | null : Json
  | bool (b : Bool) : Json
  | num (lit : String) : Json
  | str (s : String) : Json
  | arr (elems : List Json) : Json
  | obj (fields : List (String × Json)) : Json

/-- Key lookup in a JSON object (Go map indexing). -/
def jlookup : List (String × Json) → String → Option Json
  | [], _ => Option.none
  | (k', v') :: t, k => if k' = k then Option.some v' else jlookup t k

/-- Key update in a JSON object (Go map assignment). -/
def jset : List (String × Json) → String → Json → List (String × Json)
  | [], k, v => [(k, v)]
  | (k', v') :: t, k, v => if k' = k then (k, v) :: t else (k', v') :: jset t k v

/-- An in-flight `http.Request`, generic in the body representation `β`
(raw bytes in the source; kept abstract so that the JSON
marshal/unmarshal pair can be instantiated). -/
structure Request (β : Type) where
  method : String
  url : String
  headers : Headers
  contentLength : Int
  body : β

/-- The re-serialisation step of `ensureStreamOptions` when the payload was
modified: marshal the new payload, install it as the body, and reset
`ContentLength` and the `Content-Length` header. -/
def rebuildRequest {β : Type} (render : List (String × Json) → β) (blen : β → Nat)
    (req : Request β) (payload2 : List (String × Json)) : Request β :=
  let nb := render payload2
  ⟨req.method, req.url, setH req.headers "Content-Length" (toString (blen nb)),
   Int.ofNat (blen nb), nb⟩

/-- `ensureStreamOptions`: on a `POST` with a JSON content type whose body
parses to a JSON object with `stream == true`, force
`stream_options.include_usage == true` (creating or replacing
`stream_options` when it is absent or not an object), re-serialising the
body only when something changed. `parse` embeds `json.Unmarshal` into
`map[string]interface{}`, `render` embeds `json.Marshal`, `blen` the byte
length of a rendered body. -/
def ensureStreamOptions {β : Type} (parse : β → Option (List (String × Json)))
    (render : List (String × Json) → β) (blen : β → Nat) (req : Request β) : Request β :=
  if req.method = "POST" ∧ containsStr (getH req.headers "Content-Type") "application/json" then
    match parse req.body with
    | Option.none => req
    | Option.some payload =>
      match jlookup payload "stream" with
      | Option.some (Json.bool true) =>
        match jlookup payload "stream_options" with
        | Option.some (Json.obj opts) =>
          match jlookup opts "include_usage" with
          | Option.some (Json.bool true) => req
          | _ =>
            rebuildRequest render blen req
              (jset payload "stream_options" (Json.obj (jset opts "include_usage" (Json.bool true))))
        | _ =>
          rebuildRequest render blen req
            (jset payload "stream_options" (Json.obj [("include_usage", Json.bool true)]))
      | _ => req
  else req

/-! ## Request dump and Authorization masking (`Recorder.PrepareLogFile`, step 5) -/

/-- Render one header field the way `httputil.DumpRequest` writes it: one
`Key: value\r\n` line per value. -/
def renderHeaderField (p : String × List String) : List Char :=
  (p.2.map (fun v => (p.1 ++ ": " ++ v ++ "\r\n").data)).flatten

/-- Render all header fields. -/
def renderHeaders (hs : Headers) : List Char := (hs.map renderHeaderField).flatten

/-- `httputil.DumpRequest(req, false)`: request line, headers, blank
line. -/
def dumpRequest {β : Type} (req : Request β) : List Char :=
  (req.method ++ " " ++ req.url ++ " HTTP/1.1\r\n").data ++
    renderHeaders req.headers ++ ('\r' :: '\n' :: [])

/-- Step 5 of `PrepareLogFile`: read the original `Authorization` value;
when `maskKey` is set and the header is present, set it to
`Bearer fake-key-logging`, dump the request, then set it back. Returns the
dump that is written to the record file and the in-flight request as left
behind. -/
def prepareDumpMasked {β : Type} (maskKey : Bool) (req : Request β) :
    List Char × Request β :=
  let originalKey := getH req.headers "Authorization"
  let req1 :=
    if maskKey = true ∧ originalKey ≠ "" then
      ⟨req.method, req.url, setH req.headers "Authorization" "Bearer fake-key-logging",
       req.contentLength, req.body⟩
    else req
  let dump := dumpRequest req1
  let req2 :=
    if maskKey = true ∧ originalKey ≠ "" then
      ⟨req1.method, req1.url, setH req1.headers "Authorization" originalKey,
       req1.contentLength, req1.body⟩
    else req1
  (dump, req2)

/-! ## Instrumented response writer (`InstrumentedResponseWriter`) -/

/-- The writer's mutable state (start time elided; elapsed time at a write
is carried by the operation). -/
structure IRW where
  statusCode : Int
  bytesWritten : Int
  ttft : Int
  firstByte : Bool
deriving DecidableEq

/-- `NewInstrumentedResponseWriter`: status 200, ttft −1, first byte
pending. -/
def newIRW : IRW := ⟨200, 0, -1, true⟩

/-- The operations the HTTP stack may perform on the writer. A `write`
carries the milliseconds elapsed since construction (`time.Since(startTime)`)
and the byte count reported by the underlying writer. -/
inductive RWOp where
  | writeHeader (code : Int) : RWOp
  | write (elapsedMs : Int) (n : Nat) : RWOp
  | flush : RWOp
deriving DecidableEq

/-- One operation on the writer. -/
def irwStep (rw : IRW) (op : RWOp) : IRW :=
  match op with
  | RWOp.writeHeader c => ⟨c, rw.bytesWritten, rw.ttft, rw.firstByte⟩
  | RWOp.write t n =>
    let rw1 := if rw.firstByte then ⟨rw.statusCode, rw.bytesWritten, t, false⟩ else rw
    ⟨rw1.statusCode, rw1.bytesWritten + Int.ofNat n, rw1.ttft, rw1.firstByte⟩
  | RWOp.flush => rw

/-- A whole sequence of writer operations from construction. -/
def irwRun (ops : List RWOp) : IRW := ops.foldl irwStep newIRW

/-- `GetMetrics`: (status code, bytes written, ttft). -/
def getMetrics (rw : IRW) : Int × Int × Int := (rw.statusCode, rw.bytesWritten, rw.ttft)

/-! ## Concrete sample data (used to exercise the theorems below) -/

/-- A small record-header JSON text. -/
def hdrJsonW : List Char :=
  "\x7b\"version\":\"LLM_PROXY_V2\",\"layout\":\x7b\"req_header_len\":10,\"req_body_len\":20,\"res_header_len\":5,\"res_body_len\":7\x7d\x7d".data

/-- A sample `json.Unmarshal` into `replay.fileHeader`: succeeds exactly on
`hdrJsonW` padded with spaces to 2047 bytes (what the replay transport
extracts from a well-formed record file). -/
def decodeW : List Char → Option ReplayFileHeader := fun s =>
  if s = hdrJsonW ++ List.replicate (2047 - hdrJsonW.length) ' ' then
    Option.some ⟨"LLM_PROXY_V2", 10, 20, 5, 7⟩
  else Option.none

/-- A sample `http.ReadResponse`: returns the length of what it was
given. -/
def rrW : List Char → Option Nat := fun s => Option.some s.length

/-- A sample record file: back-patched header slot followed by content. -/
def fileW : List Char := buildFinalBlock hdrJsonW ++ ('X' :: 'Y' :: 'Z' :: [])

/-- An SSE chunk-object JSON carrying `total_tokens = 5`. -/
def usageJsonW1 : List Char :=
  "\x7b\"usage\":\x7b\"prompt_tokens\":1,\"completion_tokens\":2,\"total_tokens\":5\x7d\x7d".data

/-- An SSE chunk-object JSON carrying `total_tokens = 7`. -/
def usageJsonW2 : List Char :=
  "\x7b\"usage\":\x7b\"prompt_tokens\":3,\"completion_tokens\":4,\"total_tokens\":7\x7d\x7d".data

/-- A sample decoder for SSE chunk objects: recognises the two payloads
above. -/
def decW : List Char → Option UsageInfo := fun s =>
  if s = usageJsonW1 then Option.some ⟨1, 2, 5, Option.none⟩
  else if s = usageJsonW2 then Option.some ⟨3, 4, 7, Option.none⟩
  else Option.none

/-- A streamed response in two chunks whose line boundaries do not match
the chunk boundaries; both usage-bearing lines qualify, the second one
last. -/
def chunksW : List (List Char) :=
  [('d' :: 'a' :: 't' :: 'a' :: ':' :: ' ' :: []) ++ usageJsonW1 ++ ('\n' :: 'd' :: 'a' :: []),
   ('t' :: 'a' :: ':' :: ' ' :: []) ++ usageJsonW2 ++ ('\n' :: []) ++
     "data: [DONE]".data ++ ('\n' :: [])]

/-- An SSE chunk-object JSON carrying `total_tokens = 1` (counterexample
data). -/
def usageJsonCE : List Char :=
  "\x7b\"usage\":\x7b\"prompt_tokens\":0,\"completion_tokens\":0,\"total_tokens\":1\x7d\x7d".data

/-- A decoder recognising `usageJsonCE`. -/
def decCE : List Char → Option UsageInfo := fun s =>
  if s = usageJsonCE then Option.some ⟨0, 0, 1, Option.none⟩ else Option.none

/-- A single SSE `data:` line longer than 64 KiB: the payload is preceded
by 65600 spaces (which `strings.TrimSpace` would remove after the `data:`
marker). -/
def lineCE : List Char :=
  ('d' :: 'a' :: 't' :: 'a' :: ':' :: ' ' :: []) ++ List.replicate 65600 ' ' ++ usageJsonCE

/-- That line as a single delivered chunk. -/
def chunkCE : List Char := lineCE ++ ('\n' :: [])

/-- A small header JSON for exercising `UpdateLogFile`. -/
def jsonSmall : List Char := "\x7b\"version\":\"LLM_PROXY_V2\"\x7d".data

/-- A request carrying an Authorization header (arbitrary `Unit` body). -/
def reqAuthW : Request Unit :=
  ⟨"POST", "/v1/chat/completions",
   [("Host", ["example.com"]),
    ("Authorization", ["Bearer sk-secret"]),
    ("Content-Type", ["application/json"])],
   0, ()⟩

/-- A streaming chat request body, already parsed
(`stream == true`, no `stream_options`). -/
def reqStreamW : Request (List (String × Json)) :=
  ⟨"POST", "/v1/chat/completions",
   [("Content-Type", ["application/json"])],
   0,
   [("model", Json.str "qwen3-max"), ("stream", Json.bool true)]⟩

/-- The header state at the end of a successful recording (before
marshalling): version tag, the caller's meta data, the four layout lengths
and the stream flag, and the usage left to the separately-modelled usage
sniffer. -/
def recHdrF (meta0 : MetaData) (reqDump bodyBytes resHeaderBytes : List Char)
    (ct te : String) (chunks : List (List Char)) : RecordHeader :=
  ⟨"LLM_PROXY_V2", meta0,
   ⟨reqDump.length, bodyBytes.length, resHeaderBytes.length, chunks.flatten.length,
    streamDetect ct te⟩,
   UsageInfo.zero⟩

/-! # Theorems

## Generic lemmas about the utilities -/

theorem startsWithL_iff (n h : List Char) : startsWithL n h = true ↔ ∃ t, h = n ++ t := by
  induction n generalizing h with
  | nil => simp [startsWithL]
  | cons a as ih =>
    cases h with
    | nil => simp [startsWithL]
    | cons b bs =>
      simp only [startsWithL, Bool.and_eq_true, beq_iff_eq, ih, List.cons_append,
        List.cons.injEq]
      constructor
      · rintro ⟨rfl, t, rfl⟩
        exact ⟨t, rfl, rfl⟩
      · rintro ⟨t, rfl, rfl⟩
        exact ⟨rfl, t, rfl⟩

theorem containsSub_iff (n h : List Char) :
    containsSub n h = true ↔ ∃ p q, h = p ++ n ++ q := by
  induction h with
  | nil =>
    simp only [containsSub, List.isEmpty_iff]
    constructor
    · rintro rfl
      exact ⟨[], [], rfl⟩
    · rintro ⟨p, q, hpq⟩
      obtain ⟨hpn, hq⟩ := List.append_eq_nil.mp hpq.symm
      obtain ⟨hp, hn⟩ := List.append_eq_nil.mp hpn
      exact hn
  | cons c t ih =>
    simp only [containsSub, Bool.or_eq_true, startsWithL_iff, ih]
    constructor
    · rintro (⟨q, hq⟩ | ⟨p, q, rfl⟩)
      · exact ⟨[], q, by simpa using hq⟩
      · exact ⟨c :: p, q, rfl⟩
    · rintro ⟨p, q, hpq⟩
      cases p with
      | nil => exact Or.inl ⟨q, by simpa using hpq⟩
      | cons x p' =>
        right
        simp only [List.cons_append, List.cons.injEq] at hpq
        exact ⟨p', q, hpq.2⟩

theorem containsSub_of_part {n m : List Char} (hc : containsSub n m = true)
    (a b : List Char) : containsSub n (a ++ m ++ b) = true := by
  obtain ⟨p, q, rfl⟩ := (containsSub_iff n m).mp hc
  exact (containsSub_iff n _).mpr ⟨a ++ p, q ++ b, by simp⟩

theorem trimSpace_part (l : List Char) : ∃ a b, l = a ++ trimSpace l ++ b := by
  refine ⟨l.takeWhile isSpc, ((l.dropWhile isSpc).reverse.takeWhile isSpc).reverse, ?_⟩
  unfold trimSpace trimRightSpc trimLeftSpc
  conv_lhs => rw [← List.takeWhile_append_dropWhile isSpc l]
  rw [List.append_assoc]
  congr 1
  conv_lhs =>
    rw [← List.reverse_reverse (l.dropWhile isSpc),
      ← List.takeWhile_append_dropWhile isSpc (l.dropWhile isSpc).reverse,
      List.reverse_append]

theorem containsSub_of_trim_drop {n l : List Char} (k : Nat)
    (hc : containsSub n (trimSpace (l.drop k)) = true) : containsSub n l = true := by
  obtain ⟨a, b, hab⟩ := trimSpace_part (l.drop k)
  have hl : l = (l.take k ++ a) ++ trimSpace (l.drop k) ++ b := by
    conv_lhs => rw [← List.take_append_drop k l, hab]
    simp
  rw [hl]
  exact containsSub_of_part hc _ _

/-! ## Lemmas about header maps -/

theorem getH_setH_same (h : Headers) (k v : String) : getH (setH h k v) k = v := by
  induction h with
  | nil => simp [setH, getH]
  | cons p t ih =>
    obtain ⟨k', vs⟩ := p
    by_cases hk : k' = k
    · simp [setH, hk, getH]
    · simp [setH, hk, getH, ih]

theorem getH_setH_ne (h : Headers) (k v k' : String) (hne : k' ≠ k) :
    getH (setH h k v) k' = getH h k' := by
  have hkk : ¬ k = k' := fun hh => hne hh.symm
  induction h with
  | nil =>
    simp only [setH, getH]
    rw [if_neg hkk]
  | cons p t ih =>
    obtain ⟨k0, vs⟩ := p
    by_cases hk : k0 = k
    · subst hk
      simp only [setH, if_pos rfl, getH, if_neg hkk]
    · simp only [setH, if_neg hk, getH]
      by_cases hk' : k0 = k'
      · rw [if_pos hk', if_pos hk']
      · rw [if_neg hk', if_neg hk', ih]

theorem lookupH_setH_ne (h : Headers) (k v k' : String) (hne : k' ≠ k) :
    lookupH (setH h k v) k' = lookupH h k' := by
  have hkk : ¬ k = k' := fun hh => hne hh.symm
  induction h with
  | nil =>
    simp only [setH, lookupH]
    rw [if_neg hkk]
  | cons p t ih =>
    obtain ⟨k0, vs⟩ := p
    by_cases hk : k0 = k
    · subst hk
      simp only [setH, if_pos rfl, lookupH, if_neg hkk]
    · simp only [setH, if_neg hk, lookupH]
      by_cases hk' : k0 = k'
      · rw [if_pos hk', if_pos hk']
      · rw [if_neg hk', if_neg hk', ih]

theorem setH_mem (h : Headers) (k v : String) : (k, [v]) ∈ setH h k v := by
  induction h with
  | nil => simp [setH]
  | cons p t ih =>
    obtain ⟨k0, vs⟩ := p
    by_cases hk : k0 = k
    · simp [setH, hk]
    · simp only [setH, if_neg hk, List.mem_cons]
      exact Or.inr ih

/-! ## Lemmas about JSON objects -/

theorem jlookup_jset_same (m : List (String × Json)) (k : String) (v : Json) :
    jlookup (jset m k v) k = Option.some v := by
  induction m with
  | nil => simp [jset, jlookup]
  | cons p t ih =>
    obtain ⟨k0, v0⟩ := p
    by_cases hk : k0 = k
    · simp [jset, hk, jlookup]
    · simp [jset, hk, jlookup, ih]

theorem jlookup_jset_ne (m : List (String × Json)) (k : String) (v : Json) (k' : String)
    (hne : k' ≠ k) : jlookup (jset m k v) k' = jlookup m k' := by
  have hkk : ¬ k = k' := fun hh => hne hh.symm
  induction m with
  | nil =>
    simp only [jset, jlookup]
    rw [if_neg hkk]
  | cons p t ih =>
    obtain ⟨k0, v0⟩ := p
    by_cases hk : k0 = k
    · subst hk
      simp only [jset, if_pos rfl, jlookup, if_neg hkk]
    · simp only [jset, if_neg hk, jlookup]
      by_cases hk' : k0 = k'
      · rw [if_pos hk', if_pos hk']
      · rw [if_neg hk', if_neg hk', ih]

/-! ## Lemmas about the file model and the recorder -/

theorem fwrite_append (d bs : List Char) :
    fwrite ⟨d, d.length, false⟩ bs =
      (⟨d ++ bs, d.length + bs.length, false⟩, Except.ok bs.length) := by
  simp [fwrite, List.take_length, List.drop_eq_nil_of_le (Nat.le_add_right d.length bs.length)]

theorem length_copyInto (dst src : List Char) : (copyInto dst src).length = dst.length := by
  simp only [copyInto, List.length_append, List.length_take, List.length_drop]
  omega

theorem length_buildFinalBlock (j : List Char) : (buildFinalBlock j).length = HeaderLen := by
  simp only [buildFinalBlock]
  by_cases hj : HeaderLen - 1 < j.length
  · rw [if_pos hj]
    simp [List.length_set, length_copyInto, List.length_replicate]
  · rw [if_neg hj]
    simp [List.length_set, length_copyInto, List.length_replicate]

theorem replicate_set_last (n : Nat) (c x : Char) :
    (List.replicate (n + 1) c).set n x = List.replicate n c ++ [x] := by
  induction n with
  | zero => simp
  | succ m ih =>
    rw [List.replicate_succ, List.set_cons_succ, ih, List.replicate_succ, List.cons_append]

theorem buildFinalBlock_short {j : List Char} (hj : j.length ≤ HeaderLen - 1) :
    buildFinalBlock j = j ++ List.replicate (HeaderLen - 1 - j.length) ' ' ++ ['\n'] := by
  simp only [buildFinalBlock]
  rw [if_neg (by omega)]
  unfold copyInto
  have hmin : min j.length (List.replicate HeaderLen ' ').length = j.length := by
    simp only [List.length_replicate]
    unfold HeaderLen
    unfold HeaderLen at hj
    omega
  rw [hmin, List.take_length, List.drop_replicate, List.set_append]
  rw [if_neg (by unfold HeaderLen; unfold HeaderLen at hj; omega)]
  have hrep : HeaderLen - j.length = (HeaderLen - 1 - j.length) + 1 := by
    unfold HeaderLen
    unfold HeaderLen at hj
    omega
  rw [hrep, replicate_set_last]
  simp [List.append_assoc]

theorem buildFinalBlock_long {j : List Char} (hj : HeaderLen - 1 < j.length) :
    buildFinalBlock j = j.take (HeaderLen - 1) ++ ['\n'] := by
  simp only [buildFinalBlock]
  rw [if_pos hj]
  unfold copyInto
  have hmin : min (j.take (HeaderLen - 1)).length (List.replicate HeaderLen ' ').length
      = HeaderLen - 1 := by
    simp only [List.length_take, List.length_replicate]
    unfold HeaderLen
    unfold HeaderLen at hj
    omega
  rw [hmin, List.take_take, List.drop_replicate, List.set_append]
  rw [if_neg (by simp only [List.length_take]; unfold HeaderLen; unfold HeaderLen at hj; omega)]
  have h1 : min (HeaderLen - 1) (HeaderLen - 1) = HeaderLen - 1 := by omega
  have h2 : HeaderLen - (HeaderLen - 1) = 1 := by unfold HeaderLen; omega
  have h3 : HeaderLen - 1 - (j.take (HeaderLen - 1)).length = 0 := by
    simp only [List.length_take]
    unfold HeaderLen
    unfold HeaderLen at hj
    omega
  rw [h1, h2, h3]
  rfl

theorem updateLogFile_open_spec (j : List Char) (f : MFile) (h : f.closed = false) :
    updateLogFile j (Option.some f) =
      (Option.some ⟨buildFinalBlock j ++ f.data.drop HeaderLen, HeaderLen, true⟩,
       Option.none) := by
  have hlen := length_buildFinalBlock j
  simp [updateLogFile, fseek, fwrite, fclose, h, hlen]

/-- C4: for every header state, `UpdateLogFile` writes an exactly-2048-byte
block at offset 0 whose final byte is `'\n'`; a serialized header JSON of at
most 2047 bytes is stored verbatim followed by space padding, while a longer
one is truncated to exactly its first 2047 bytes, the terminal byte still
being `'\n'`. -/
theorem updateLogFile_block_layout (j : List Char) (f : MFile) (h : f.closed = false) :
    ∃ f', updateLogFile j (Option.some f) = (Option.some f', Option.none)
      ∧ f'.data = buildFinalBlock j ++ f.data.drop HeaderLen
      ∧ (buildFinalBlock j).length = HeaderLen
      ∧ (buildFinalBlock j).getLast? = Option.some '\n'
      ∧ (j.length ≤ HeaderLen - 1 →
          buildFinalBlock j = j ++ List.replicate (HeaderLen - 1 - j.length) ' ' ++ ['\n'])
      ∧ (HeaderLen - 1 < j.length →
          buildFinalBlock j = j.take (HeaderLen - 1) ++ ['\n']) := by
  refine ⟨⟨buildFinalBlock j ++ f.data.drop HeaderLen, HeaderLen, true⟩,
    updateLogFile_open_spec j f h, rfl, length_buildFinalBlock j, ?_, ?_, ?_⟩
  · by_cases hj : HeaderLen - 1 < j.length
    · rw [buildFinalBlock_long hj]
      exact List.getLast?_concat _
    · rw [buildFinalBlock_short (by omega)]
      rw [List.append_assoc]
      rw [← List.append_assoc]
      exact List.getLast?_concat _
  · intro hj
    exact buildFinalBlock_short hj
  · intro hj
    exact buildFinalBlock_long hj

/-- Witness for `updateLogFile_block_layout` at a concrete open file and a
concrete small header JSON. -/
theorem updateLogFile_block_layout_witness :
    (⟨[], 0, false⟩ : MFile).closed = false
    ∧ ∃ f', updateLogFile jsonSmall (Option.some ⟨[], 0, false⟩) = (Option.some f', Option.none)
      ∧ f'.data = buildFinalBlock jsonSmall ++ ([] : List Char).drop HeaderLen
      ∧ (buildFinalBlock jsonSmall).length = HeaderLen
      ∧ (buildFinalBlock jsonSmall).getLast? = Option.some '\n'
      ∧ (jsonSmall.length ≤ HeaderLen - 1 →
          buildFinalBlock jsonSmall =
            jsonSmall ++ List.replicate (HeaderLen - 1 - jsonSmall.length) ' ' ++ ['\n'])
      ∧ (HeaderLen - 1 < jsonSmall.length →
          buildFinalBlock jsonSmall = jsonSmall.take (HeaderLen - 1) ++ ['\n']) :=
  ⟨rfl, updateLogFile_block_layout jsonSmall ⟨[], 0, false⟩ rfl⟩

/-- C7 (amended): after a successful first `UpdateLogFile` on an open file,
a second call leaves the file contents (and handle) unchanged, but — the
first call having closed the handle — it returns a seek error instead of no
error. -/
theorem updateLogFile_double_call (j : List Char) (f : MFile) (h : f.closed = false) :
    ∃ f', updateLogFile j (Option.some f) = (Option.some f', Option.none)
      ∧ ∃ e, updateLogFile j (Option.some f') = (Option.some f', Option.some e) := by
  refine ⟨⟨buildFinalBlock j ++ f.data.drop HeaderLen, HeaderLen, true⟩,
    updateLogFile_open_spec j f h, "seek on closed file", ?_⟩
  simp [updateLogFile, fseek, fclose]

/-- Witness for `updateLogFile_double_call` at a concrete open file. -/
theorem updateLogFile_double_call_witness :
    (⟨[], 0, false⟩ : MFile).closed = false
    ∧ ∃ f', updateLogFile jsonSmall (Option.some ⟨[], 0, false⟩) = (Option.some f', Option.none)
      ∧ ∃ e, updateLogFile jsonSmall (Option.some f') = (Option.some f', Option.some e) :=
  ⟨rfl, updateLogFile_double_call jsonSmall ⟨[], 0, false⟩ rfl⟩

/-- C7 counterexample: at a concrete `LogInfo` holding an open file, the
first `UpdateLogFile` call succeeds, but the second call does NOT return
`nil`: it fails (seek on the closed handle), refuting "it returns no
error". -/
theorem updateLogFile_double_call_counterexample :
    (updateLogFile jsonSmall (Option.some ⟨[], 0, false⟩)).2 = Option.none
    ∧ (updateLogFile jsonSmall
        (updateLogFile jsonSmall (Option.some ⟨[], 0, false⟩)).1).2 ≠ Option.none := by
  have h1 := updateLogFile_open_spec jsonSmall ⟨[], 0, false⟩ rfl
  constructor
  · rw [h1]
  · rw [h1]
    simp [updateLogFile, fseek, fclose]

/-! ## Instrumented response writer -/

theorem irwStep_preserves_ttft (rw : IRW) (op : RWOp)
    (hop : ∀ t n, op ≠ RWOp.write t n) : (irwStep rw op).ttft = rw.ttft := by
  cases op with
  | writeHeader c => rfl
  | write t n => exact absurd rfl (hop t n)
  | flush => rfl

theorem irwStep_preserves_status (rw : IRW) (op : RWOp)
    (hop : ∀ c, op ≠ RWOp.writeHeader c) : (irwStep rw op).statusCode = rw.statusCode := by
  cases op with
  | writeHeader c => exact absurd rfl (hop c)
  | write t n =>
    simp only [irwStep]
    by_cases hfb : rw.firstByte
    · rw [if_pos hfb]
    · rw [if_neg hfb]
  | flush => rfl

theorem irwRun_no_write_ttft (ops : List RWOp) (init : IRW)
    (hops : ∀ op ∈ ops, ∀ t n, op ≠ RWOp.write t n) :
    (ops.foldl irwStep init).ttft = init.ttft := by
  induction ops generalizing init with
  | nil => rfl
  | cons op rest ih =>
    rw [List.foldl_cons, ih _ (fun o ho => hops o (List.mem_cons_of_mem op ho)),
      irwStep_preserves_ttft init op (hops op (List.mem_cons_self op rest))]

theorem irwRun_no_writeHeader_status (ops : List RWOp) (init : IRW)
    (hops : ∀ op ∈ ops, ∀ c, op ≠ RWOp.writeHeader c) :
    (ops.foldl irwStep init).statusCode = init.statusCode := by
  induction ops generalizing init with
  | nil => rfl
  | cons op rest ih =>
    rw [List.foldl_cons, ih _ (fun o ho => hops o (List.mem_cons_of_mem op ho)),
      irwStep_preserves_status init op (hops op (List.mem_cons_self op rest))]

/-- C10: if `Write` is never called on the instrumented response writer, the
TTFT it reports through `GetMetrics` is −1 (not 0); and whenever
`WriteHeader` is never called, the reported status code is 200. -/
theorem irw_defaults (ops : List RWOp) :
    ((∀ op ∈ ops, ∀ t n, op ≠ RWOp.write t n) →
      (getMetrics (irwRun ops)).2.2 = -1 ∧ (getMetrics (irwRun ops)).2.2 ≠ 0)
    ∧ ((∀ op ∈ ops, ∀ c, op ≠ RWOp.writeHeader c) →
      (getMetrics (irwRun ops)).1 = 200) := by
  constructor
  · intro hops
    have h := irwRun_no_write_ttft ops newIRW hops
    constructor
    · exact h
    · show (irwRun ops).ttft ≠ 0
      unfold irwRun
      rw [h]
      decide
  · intro hops
    exact irwRun_no_writeHeader_status ops newIRW hops

/-- Witness for `irw_defaults`: a run that only flushes reports ttft −1 and
status 200. -/
theorem irw_defaults_witness :
    ((∀ op ∈ [RWOp.flush], ∀ t n, op ≠ RWOp.write t n) →
      (getMetrics (irwRun [RWOp.flush])).2.2 = -1 ∧ (getMetrics (irwRun [RWOp.flush])).2.2 ≠ 0)
    ∧ ((∀ op ∈ [RWOp.flush], ∀ c, op ≠ RWOp.writeHeader c) →
      (getMetrics (irwRun [RWOp.flush])).1 = 200) :=
  irw_defaults [RWOp.flush]

/-! ## The recording pipeline -/

theorem length_padBlock : padBlock.length = HeaderLen := by
  simp [padBlock]

theorem prepareLogFile_spec (reqDump bodyBytes : List Char) (meta0 : MetaData) :
    prepareLogFile reqDump bodyBytes meta0 =
      Except.ok ⟨⟨padBlock ++ reqDump ++ bodyBytes,
                  HeaderLen + reqDump.length + bodyBytes.length, false⟩,
        ⟨"LLM_PROXY_V2", meta0,
         ⟨reqDump.length, bodyBytes.length, 0, 0, false⟩, UsageInfo.zero⟩⟩ := by
  simp only [prepareLogFile]
  rw [show HeaderLen = padBlock.length from length_padBlock.symm]
  generalize padBlock = pb
  have h1 := fwrite_append [] pb
  simp only [List.length_nil, List.nil_append, Nat.zero_add] at h1
  rw [h1]
  simp only []
  rw [fwrite_append pb reqDump]
  simp only []
  have h3 := fwrite_append (pb ++ reqDump) bodyBytes
  rw [List.length_append] at h3
  rw [h3]

theorem modifyResponse_spec (d : List Char) (hdr : RecordHeader)
    (resHeaderBytes : List Char) (ct te : String) :
    modifyResponse ⟨⟨d, d.length, false⟩, hdr⟩ resHeaderBytes ct te =
      (⟨⟨d ++ ['\n'] ++ resHeaderBytes, d.length + 1 + resHeaderBytes.length, false⟩,
        ⟨hdr.version, hdr.meta,
         ⟨hdr.layout.reqHeaderLen, hdr.layout.reqBodyLen, resHeaderBytes.length,
          hdr.layout.resBodyLen,
          if streamDetect ct te then true else hdr.layout.isStream⟩,
         hdr.usage⟩⟩,
       streamDetect ct te) := by
  have h1 : fwrite ⟨d, d.length, false⟩ ['\n'] =
      (⟨d ++ ['\n'], d.length + 1, false⟩, Except.ok 1) := by
    simpa using fwrite_append d ['\n']
  have h2 : fwrite ⟨d ++ ['\n'], d.length + 1, false⟩ resHeaderBytes =
      (⟨d ++ ['\n'] ++ resHeaderBytes, d.length + 1 + resHeaderBytes.length, false⟩,
       Except.ok resHeaderBytes.length) := by
    have h := fwrite_append (d ++ ['\n']) resHeaderBytes
    simpa [List.length_append] using h
  simp only [modifyResponse]
  rw [h1]
  simp only []
  rw [h2]

theorem snifferRead_fold (chunks : List (List Char)) (d : List Char) (hdr : RecordHeader) :
    chunks.foldl snifferRead ⟨⟨d, d.length, false⟩, hdr⟩ =
      ⟨⟨d ++ chunks.flatten, d.length + chunks.flatten.length, false⟩,
       ⟨hdr.version, hdr.meta,
        ⟨hdr.layout.reqHeaderLen, hdr.layout.reqBodyLen, hdr.layout.resHeaderLen,
         hdr.layout.resBodyLen + chunks.flatten.length, hdr.layout.isStream⟩,
        hdr.usage⟩⟩ := by
  induction chunks generalizing d hdr with
  | nil =>
    obtain ⟨v, m, ⟨a, b, c, r, s⟩, u⟩ := hdr
    simp
  | cons ch rest ih =>
    rw [List.foldl_cons]
    have hstep : snifferRead ⟨⟨d, d.length, false⟩, hdr⟩ ch =
        ⟨⟨d ++ ch, (d ++ ch).length, false⟩,
         ⟨hdr.version, hdr.meta,
          ⟨hdr.layout.reqHeaderLen, hdr.layout.reqBodyLen, hdr.layout.resHeaderLen,
           hdr.layout.resBodyLen + ch.length, hdr.layout.isStream⟩,
          hdr.usage⟩⟩ := by
      simp only [snifferRead]
      rw [fwrite_append d ch]
      simp [List.length_append]
    rw [hstep, ih]
    simp [List.length_append, List.append_assoc, Nat.add_assoc]

theorem recordRun_spec (marshal : RecordHeader → List Char)
    (reqDump bodyBytes resHeaderBytes : List Char) (meta0 : MetaData)
    (ct te : String) (chunks : List (List Char)) :
    recordRun marshal reqDump bodyBytes resHeaderBytes meta0 ct te chunks =
      Except.ok
        (Option.some
          ⟨buildFinalBlock (marshal (recHdrF meta0 reqDump bodyBytes resHeaderBytes ct te chunks))
             ++ (reqDump ++ (bodyBytes ++ ('\n' :: (resHeaderBytes ++ chunks.flatten)))),
           HeaderLen, true⟩,
         recHdrF meta0 reqDump bodyBytes resHeaderBytes ct te chunks,
         Option.none, streamDetect ct te) := by
  simp only [recordRun]
  rw [prepareLogFile_spec]
  simp only []
  rw [show HeaderLen + reqDump.length + bodyBytes.length
        = (padBlock ++ reqDump ++ bodyBytes).length from by
      simp only [List.length_append, length_padBlock]]
  rw [modifyResponse_spec]
  simp only []
  rw [show (padBlock ++ reqDump ++ bodyBytes).length + 1 + resHeaderBytes.length
        = (padBlock ++ reqDump ++ bodyBytes ++ ['\n'] ++ resHeaderBytes).length from by
      simp only [List.length_append, List.length_singleton]]
  rw [snifferRead_fold]
  simp only []
  rw [updateLogFile_open_spec _ _ rfl]
  have hhdr : (⟨"LLM_PROXY_V2", meta0,
      ⟨reqDump.length, bodyBytes.length, resHeaderBytes.length, 0 + chunks.flatten.length,
       if streamDetect ct te then true else false⟩,
      UsageInfo.zero⟩ : RecordHeader)
      = recHdrF meta0 reqDump bodyBytes resHeaderBytes ct te chunks := by
    simp only [recHdrF, Nat.zero_add]
    cases streamDetect ct te <;> simp
  rw [hhdr]
  have hdrop : ∀ rest : List Char, (padBlock ++ rest).drop HeaderLen = rest :=
    fun rest => List.drop_left' length_padBlock
  simp only [List.append_assoc, List.singleton_append, List.cons_append]
  rw [hdrop]
  simp only [List.nil_append]

/-- C1: a successful recording produces a file of total length
`2048 + req_header_len + req_body_len + 1 + res_header_len + res_body_len`,
where the four layout fields are the ones held in the back-patched header:
the file is exactly the 2048-byte header slot, then `req_header_len` bytes
of request dump, then `req_body_len` body bytes, then one `'\n'`, then
`res_header_len` response-header bytes, then the `res_body_len` response
body bytes appended by the sniffer. -/
theorem recordFile_length_eq (marshal : RecordHeader → List Char)
    (reqDump bodyBytes resHeaderBytes : List Char) (meta0 : MetaData)
    (ct te : String) (chunks : List (List Char)) :
    ∃ f hdr isS,
      recordRun marshal reqDump bodyBytes resHeaderBytes meta0 ct te chunks =
        Except.ok (Option.some f, hdr, Option.none, isS)
      ∧ hdr.layout.reqHeaderLen = reqDump.length
      ∧ hdr.layout.reqBodyLen = bodyBytes.length
      ∧ hdr.layout.resHeaderLen = resHeaderBytes.length
      ∧ hdr.layout.resBodyLen = chunks.flatten.length
      ∧ f.data = buildFinalBlock (marshal hdr) ++ reqDump ++ bodyBytes ++ ['\n']
          ++ resHeaderBytes ++ chunks.flatten
      ∧ f.data.length = HeaderLen + hdr.layout.reqHeaderLen + hdr.layout.reqBodyLen
          + 1 + hdr.layout.resHeaderLen + hdr.layout.resBodyLen := by
  refine ⟨_, _, _,
    recordRun_spec marshal reqDump bodyBytes resHeaderBytes meta0 ct te chunks,
    rfl, rfl, rfl, rfl, ?_, ?_⟩
  · simp [List.append_assoc, List.cons_append, List.singleton_append]
  · simp only [List.length_append, List.length_cons, length_buildFinalBlock, recHdrF]
    omega

/-- C9: the recorded header's `layout.is_stream` is true — and the same
flag is the one that selects the SSE stream parser in the sniffer — if and
only if the response's Content-Type contains `text/event-stream` or its
Transfer-Encoding header equals `chunked`; in particular a chunked non-SSE
JSON response is treated as a stream. -/
theorem isStream_detection (marshal : RecordHeader → List Char)
    (reqDump bodyBytes resHeaderBytes : List Char) (meta0 : MetaData)
    (ct te : String) (chunks : List (List Char)) :
    ∃ f hdr,
      recordRun marshal reqDump bodyBytes resHeaderBytes meta0 ct te chunks =
        Except.ok (Option.some f, hdr, Option.none, streamDetect ct te)
      ∧ (hdr.layout.isStream = true ↔
          (containsStr ct "text/event-stream" = true ∨ te = "chunked"))
      ∧ streamDetect "application/json" "chunked" = true := by
  refine ⟨_, _,
    recordRun_spec marshal reqDump bodyBytes resHeaderBytes meta0 ct te chunks, ?_, ?_⟩
  · show (recHdrF meta0 reqDump bodyBytes resHeaderBytes ct te chunks).layout.isStream
        = true ↔ _
    simp [recHdrF, streamDetect, Bool.or_eq_true]
  · decide

/-! ## Chaos evaluation -/

theorem applyChaosDefaults_shouldInject (x : ChaosResult) :
    (applyChaosDefaults x).shouldInject = x.shouldInject := by
  simp only [applyChaosDefaults]
  split_ifs <;> rfl

theorem applyChaosDefaults_action (x : ChaosResult) :
    (applyChaosDefaults x).action = x.action := by
  simp only [applyChaosDefaults]
  split_ifs <;> rfl

theorem applyChaosDefaults_status (x : ChaosResult) (hx : x.action = "error") :
    (applyChaosDefaults x).statusCode = if x.statusCode = 0 then 500 else x.statusCode := by
  by_cases h0 : x.statusCode = 0 <;> by_cases hm : x.message = "" <;>
    simp [applyChaosDefaults, hx, h0, hm]

theorem applyChaosDefaults_message (x : ChaosResult) (hx : x.action = "error") :
    (applyChaosDefaults x).message =
      if x.message = "" then "Chaos Injection Error" else x.message := by
  by_cases h0 : x.statusCode = 0 <;> by_cases hm : x.message = "" <;>
    simp [applyChaosDefaults, hx, h0, hm]

theorem evalRules_fired (modelName : String) (draw : Nat → ℚ) (rules : List ChaosRule)
    (i : Nat) (h : (evalRules modelName draw rules i).shouldInject = true) :
    ∃ r ∈ rules, (r.model = "*" ∨ equalFold r.model modelName = true)
      ∧ (∃ j, draw j < r.rate)
      ∧ evalRules modelName draw rules i =
          applyChaosDefaults
            ⟨true, r.action, r.delay, r.statusCode, r.message,
             "Rule[Model=" ++ r.model ++ ", Action=" ++ r.action ++ "]"⟩ := by
  induction rules generalizing i with
  | nil => simp [evalRules, ChaosResult.noInject] at h
  | cons r rs ih =>
    by_cases hm : r.model ≠ "*" ∧ ¬ equalFold r.model modelName = true
    · rw [evalRules, if_pos hm] at h ⊢
      obtain ⟨r', hr', hm', hd', he'⟩ := ih i h
      exact ⟨r', List.mem_cons_of_mem r hr', hm', hd', he'⟩
    · by_cases hd : draw i < r.rate
      · rw [evalRules, if_neg hm, if_pos hd] at h ⊢
        refine ⟨r, List.mem_cons_self r rs, ?_, ⟨i, hd⟩, rfl⟩
        by_cases hw : r.model = "*"
        · exact Or.inl hw
        · right
          by_contra hef
          exact hm ⟨hw, hef⟩
      · rw [evalRules, if_neg hm, if_neg hd] at h ⊢
        obtain ⟨r', hr', hm', hd', he'⟩ := ih (i + 1) h
        exact ⟨r', List.mem_cons_of_mem r hr', hm', hd', he'⟩

/-- C3: when chaos is enabled and a rule with action `error` fires for the
request's model (its model matches and the uniform draw is below its rate),
the handler terminates the request locally with the rule's status code
(default 500 when unset) and message (default "Chaos Injection Error" when
unset), makes no upstream call, and the header back-patch records that same
injected status. The handler's `error` branch is modelled from the spec
(`handleWithChaos`), the evaluation from the source. -/
theorem chaos_error_injection (enabled : Bool) (rules : List ChaosRule)
    (modelName : String) (draw : Nat → ℚ) (upstreamStatus : Int) (upstreamBody : String)
    (res : ChaosResult) (hres : res = chaosEvaluate enabled rules modelName draw)
    (hfire : res.shouldInject = true) (herr : res.action = "error") :
    handleWithChaos res upstreamStatus upstreamBody =
      ⟨false, res.statusCode, res.statusCode, res.message⟩
    ∧ ∃ r ∈ rules, (r.model = "*" ∨ equalFold r.model modelName = true)
        ∧ (∃ j, draw j < r.rate)
        ∧ r.action = "error"
        ∧ res.statusCode = (if r.statusCode = 0 then 500 else r.statusCode)
        ∧ res.message = (if r.message = "" then "Chaos Injection Error" else r.message) := by
  constructor
  · simp [handleWithChaos, hfire, herr]
  · have henabled : enabled = true := by
      cases hen : enabled
      · rw [hen] at hres
        rw [hres] at hfire
        simp [chaosEvaluate, ChaosResult.noInject] at hfire
      · rfl
    rw [henabled] at hres
    have heval : res = evalRules modelName draw rules 0 := by
      rw [hres]
      simp [chaosEvaluate]
    obtain ⟨r, hr, hmatch, hdraw, heq⟩ :=
      evalRules_fired modelName draw rules 0 (by rw [← heval]; exact hfire)
    have hresr : res =
        applyChaosDefaults
          ⟨true, r.action, r.delay, r.statusCode, r.message,
           "Rule[Model=" ++ r.model ++ ", Action=" ++ r.action ++ "]"⟩ := by
      rw [heval, heq]
    have hract : r.action = "error" := by
      have := applyChaosDefaults_action
        ⟨true, r.action, r.delay, r.statusCode, r.message,
         "Rule[Model=" ++ r.model ++ ", Action=" ++ r.action ++ "]"⟩
      rw [← hresr] at this
      exact this.symm.trans herr
    refine ⟨r, hr, hmatch, hdraw, hract, ?_, ?_⟩
    · rw [hresr,
        applyChaosDefaults_status _ (by exact hract)]
    · rw [hresr,
        applyChaosDefaults_message _ (by exact hract)]

/-- Witness for `chaos_error_injection`: a single wildcard `error` rule with
rate 1 and unset status/message fires and yields a local 500 response with
the default message. -/
theorem chaos_error_injection_witness :
    (chaosEvaluate true [⟨"*", (1 : ℚ), "error", 0, 0, ""⟩] "m"
        (fun _ => (0 : ℚ))).shouldInject = true
    ∧ (chaosEvaluate true [⟨"*", (1 : ℚ), "error", 0, 0, ""⟩] "m"
        (fun _ => (0 : ℚ))).action = "error"
    ∧ handleWithChaos
        (chaosEvaluate true [⟨"*", (1 : ℚ), "error", 0, 0, ""⟩] "m" (fun _ => (0 : ℚ)))
        200 "up" = ⟨false, 500, 500, "Chaos Injection Error"⟩
    ∧ (chaosEvaluate true [⟨"*", (1 : ℚ), "error", 0, 0, ""⟩] "m"
        (fun _ => (0 : ℚ))).statusCode = 500 := by
  have hfire : (chaosEvaluate true [⟨"*", (1 : ℚ), "error", 0, 0, ""⟩] "m"
      (fun _ => (0 : ℚ))).shouldInject = true := by decide
  have herr : (chaosEvaluate true [⟨"*", (1 : ℚ), "error", 0, 0, ""⟩] "m"
      (fun _ => (0 : ℚ))).action = "error" := by decide
  have h := chaos_error_injection true [⟨"*", (1 : ℚ), "error", 0, 0, ""⟩] "m"
    (fun _ => (0 : ℚ)) 200 "up" _ rfl hfire herr
  refine ⟨hfire, herr, ?_, by decide⟩
  rw [h.1]
  decide

/-! ## Request dump and Authorization masking -/

theorem dump_contains_header_line {β : Type} (req : Request β) (k v : String)
    (hmem : (k, [v]) ∈ req.headers) :
    containsSub (k ++ ": " ++ v ++ "\r\n").data (dumpRequest req) = true := by
  obtain ⟨s, t, hsplit⟩ := List.append_of_mem hmem
  rw [containsSub_iff]
  refine ⟨(req.method ++ " " ++ req.url ++ " HTTP/1.1\r\n").data
      ++ (s.map renderHeaderField).flatten, (t.map renderHeaderField).flatten
      ++ ('\r' :: '\n' :: []), ?_⟩
  simp only [dumpRequest, renderHeaders, hsplit, List.map_append, List.map_cons,
    List.flatten_append, List.flatten_cons, renderHeaderField, List.map_nil,
    List.flatten_nil, List.append_nil, List.append_assoc]

/-- C8: with `maskKey` enabled and an incoming `Authorization` header, the
request dump written to the record file contains
`Authorization: Bearer fake-key-logging`, while the in-flight request after
`PrepareLogFile` carries its original `Authorization` value again, every
other header untouched, and all non-header request fields unchanged. -/
theorem maskKey_dump_and_restore {β : Type} (req : Request β)
    (hauth : getH req.headers "Authorization" ≠ "") :
    containsSub "Authorization: Bearer fake-key-logging".data
        (prepareDumpMasked true req).1 = true
    ∧ getH (prepareDumpMasked true req).2.headers "Authorization"
        = getH req.headers "Authorization"
    ∧ (∀ k, k ≠ "Authorization" →
        lookupH (prepareDumpMasked true req).2.headers k = lookupH req.headers k)
    ∧ (prepareDumpMasked true req).2.method = req.method
    ∧ (prepareDumpMasked true req).2.url = req.url
    ∧ (prepareDumpMasked true req).2.contentLength = req.contentLength
    ∧ (prepareDumpMasked true req).2.body = req.body := by
  have hmd : prepareDumpMasked true req =
      (dumpRequest ⟨req.method, req.url,
          setH req.headers "Authorization" "Bearer fake-key-logging",
          req.contentLength, req.body⟩,
       ⟨req.method, req.url,
        setH (setH req.headers "Authorization" "Bearer fake-key-logging")
          "Authorization" (getH req.headers "Authorization"),
        req.contentLength, req.body⟩) := by
    simp [prepareDumpMasked, hauth]
  rw [hmd]
  refine ⟨?_, ?_, ?_, rfl, rfl, rfl, rfl⟩
  · have hline := dump_contains_header_line
      (⟨req.method, req.url,
        setH req.headers "Authorization" "Bearer fake-key-logging",
        req.contentLength, req.body⟩ : Request β)
      "Authorization" "Bearer fake-key-logging"
      (setH_mem req.headers "Authorization" "Bearer fake-key-logging")
    rw [containsSub_iff] at hline ⊢
    obtain ⟨p, q, hpq⟩ := hline
    refine ⟨p, '\r' :: '\n' :: [] ++ q, ?_⟩
    rw [hpq]
    have hdata : ("Authorization" ++ ": " ++ "Bearer fake-key-logging" ++ "\r\n").data
        = "Authorization: Bearer fake-key-logging".data ++ ('\r' :: '\n' :: []) := by
      decide
    rw [hdata]
    simp [List.append_assoc]
  · exact getH_setH_same _ _ _
  · intro k hk
    rw [lookupH_setH_ne _ _ _ _ hk, lookupH_setH_ne _ _ _ _ hk]

/-- Witness for `maskKey_dump_and_restore` at a concrete request carrying
`Authorization: Bearer sk-secret`. -/
theorem maskKey_dump_and_restore_witness :
    getH reqAuthW.headers "Authorization" ≠ ""
    ∧ (containsSub "Authorization: Bearer fake-key-logging".data
        (prepareDumpMasked true reqAuthW).1 = true
      ∧ getH (prepareDumpMasked true reqAuthW).2.headers "Authorization"
          = getH reqAuthW.headers "Authorization"
      ∧ (∀ k, k ≠ "Authorization" →
          lookupH (prepareDumpMasked true reqAuthW).2.headers k = lookupH reqAuthW.headers k)
      ∧ (prepareDumpMasked true reqAuthW).2.method = reqAuthW.method
      ∧ (prepareDumpMasked true reqAuthW).2.url = reqAuthW.url
      ∧ (prepareDumpMasked true reqAuthW).2.contentLength = reqAuthW.contentLength
      ∧ (prepareDumpMasked true reqAuthW).2.body = reqAuthW.body) :=
  ⟨by decide, maskKey_dump_and_restore reqAuthW (by decide)⟩

/-! ## Stream-options injector -/

theorem ensureStreamOptions_cases {β : Type} (parse : β → Option (List (String × Json)))
    (render : List (String × Json) → β) (blen : β → Nat) (req : Request β) :
    ensureStreamOptions parse render blen req = req
    ∨ ∃ payload opts2,
        parse req.body = Option.some payload
        ∧ req.method = "POST"
        ∧ containsStr (getH req.headers "Content-Type") "application/json" = true
        ∧ jlookup payload "stream" = Option.some (Json.bool true)
        ∧ jlookup opts2 "include_usage" = Option.some (Json.bool true)
        ∧ ensureStreamOptions parse render blen req =
            rebuildRequest render blen req
              (jset payload "stream_options" (Json.obj opts2)) := by
  simp only [ensureStreamOptions]
  split
  · rename_i hcond
    split
    · exact Or.inl rfl
    · rename_i payload hp
      split
      · rename_i hs
        split
        · rename_i opts ho
          split
          · exact Or.inl rfl
          · rename_i hi
            refine Or.inr ⟨payload, jset opts "include_usage" (Json.bool true),
              hp, hcond.1, hcond.2, hs, jlookup_jset_same opts "include_usage" (Json.bool true),
              rfl⟩
        · rename_i ho
          refine Or.inr ⟨payload, [("include_usage", Json.bool true)],
            hp, hcond.1, hcond.2, hs, ?_, rfl⟩
          simp [jlookup]
      · exact Or.inl rfl
  · exact Or.inl rfl

/-- C6: applying `ensureStreamOptions` twice to a request yields exactly the
same request (body bytes, Content-Length field and header included) as
applying it once, for every lawful marshal/unmarshal pair
(`parse (render m) = some m`); in particular a second application to an
already-injected body is a no-op. -/
theorem ensureStreamOptions_idempotent {β : Type} (parse : β → Option (List (String × Json)))
    (render : List (String × Json) → β) (blen : β → Nat)
    (hrt : ∀ m, parse (render m) = Option.some m) (req : Request β) :
    ensureStreamOptions parse render blen (ensureStreamOptions parse render blen req)
      = ensureStreamOptions parse render blen req := by
  rcases ensureStreamOptions_cases parse render blen req with
    hfix | ⟨payload, opts2, hp, hmeth, hct, hs, hi, heq⟩
  · rw [hfix]
    exact hfix
  · rw [heq]
    have hm' : (rebuildRequest render blen req
        (jset payload "stream_options" (Json.obj opts2))).method = "POST" := by
      simp only [rebuildRequest]
      exact hmeth
    have hct' : containsStr
        (getH (rebuildRequest render blen req
          (jset payload "stream_options" (Json.obj opts2))).headers "Content-Type")
        "application/json" = true := by
      simp only [rebuildRequest]
      rw [getH_setH_ne _ _ _ _ (by decide)]
      exact hct
    have hp' : parse (rebuildRequest render blen req
        (jset payload "stream_options" (Json.obj opts2))).body =
        Option.some (jset payload "stream_options" (Json.obj opts2)) := by
      simp only [rebuildRequest]
      exact hrt _
    have hs' : jlookup (jset payload "stream_options" (Json.obj opts2)) "stream"
        = Option.some (Json.bool true) := by
      rw [jlookup_jset_ne _ _ _ _ (by decide)]
      exact hs
    have ho' : jlookup (jset payload "stream_options" (Json.obj opts2)) "stream_options"
        = Option.some (Json.obj opts2) :=
      jlookup_jset_same _ _ _
    simp only [ensureStreamOptions]
    rw [if_pos ⟨hm', hct'⟩]
    rw [hp']
    simp only []
    rw [hs']
    simp only []
    rw [ho']
    simp only []
    rw [hi]

/-- Witness for `ensureStreamOptions_idempotent`: the identity codec on
parsed JSON objects and a concrete streaming chat request. -/
theorem ensureStreamOptions_idempotent_witness :
    (∀ m, (Option.some : List (String × Json) → Option (List (String × Json))) (id m)
        = Option.some m)
    ∧ ensureStreamOptions Option.some id List.length
        (ensureStreamOptions Option.some id List.length reqStreamW)
      = ensureStreamOptions Option.some id List.length reqStreamW :=
  ⟨fun _ => rfl,
   ensureStreamOptions_idempotent Option.some id List.length (fun _ => rfl) reqStreamW⟩

/-! ## Replay transport -/

theorem findIdx_none_of_all (p : Char → Bool) (a : List Char) (i : Nat)
    (h : ∀ x ∈ a, p x = false) : a.findIdx? p i = Option.none := by
  induction a generalizing i with
  | nil => rfl
  | cons x t ih =>
    simp only [List.findIdx?]
    rw [if_neg (by rw [h x (List.mem_cons_self x t)]; exact Bool.false_ne_true)]
    exact ih (i + 1) (fun y hy => h y (List.mem_cons_of_mem x hy))

theorem findIdx_append_none (p : Char → Bool) (a b : List Char) (i : Nat)
    (h : ∀ x ∈ a, p x = false) :
    (a ++ b).findIdx? p i = b.findIdx? p (i + a.length) := by
  induction a generalizing i with
  | nil => simp
  | cons x t ih =>
    simp only [List.cons_append, List.findIdx?]
    rw [if_neg (by rw [h x (List.mem_cons_self x t)]; exact Bool.false_ne_true)]
    simp only [List.append_eq]
    rw [ih (i + 1) (fun y hy => h y (List.mem_cons_of_mem x hy))]
    congr 1
    simp only [List.length_cons]
    omega

/-- C2: the replay `RoundTrip` (a) fails when fewer than 2048 header bytes
can be read; (b) searches for the first `'\n'` only within those first 2048
bytes and fails when there is none; (c) fails when the bytes before that
first `'\n'` do not decode as header JSON; and (d) on a successful decode
seeks to offset `2048 + req_header_len + req_body_len + 1` and yields
exactly the HTTP response parsed from that offset (or the parse error). -/
theorem replay_roundTrip_spec {α : Type} (decodeHeader : List Char → Option ReplayFileHeader)
    (readResponse : List Char → Option α) (file : List Char) :
    (file.length < HeaderLen →
      roundTrip decodeHeader readResponse file
        = Except.error "replay: failed to read header block")
    ∧ (HeaderLen ≤ file.length → '\n' ∉ file.take HeaderLen →
      roundTrip decodeHeader readResponse file
        = Except.error "replay: invalid header format (no newline found)")
    ∧ (∀ idx, HeaderLen ≤ file.length →
        (file.take HeaderLen).findIdx? (fun c => c == '\n') = Option.some idx →
        decodeHeader ((file.take HeaderLen).take idx) = Option.none →
        roundTrip decodeHeader readResponse file
          = Except.error "replay: invalid header json")
    ∧ (∀ idx meta, HeaderLen ≤ file.length →
        (file.take HeaderLen).findIdx? (fun c => c == '\n') = Option.some idx →
        decodeHeader ((file.take HeaderLen).take idx) = Option.some meta →
        (0 : Int) ≤ (HeaderLen : Int) + meta.reqHeaderLen + meta.reqBodyLen + 1 →
        roundTrip decodeHeader readResponse file =
          (match readResponse (file.drop
              ((HeaderLen : Int) + meta.reqHeaderLen + meta.reqBodyLen + 1).toNat) with
           | Option.none => Except.error "replay: failed to parse http response"
           | Option.some resp => Except.ok resp)) := by
  refine ⟨?_, ?_, ?_, ?_⟩
  · intro hlt
    simp only [roundTrip]
    rw [if_pos hlt]
  · intro hge hnl
    simp only [roundTrip]
    rw [if_neg (not_lt.mpr hge)]
    rw [findIdx_none_of_all _ _ 0
      (fun x hx => by
        cases hb : (x == '\n') with
        | false => rfl
        | true => exact absurd (by rwa [beq_iff_eq.mp hb] at hx) hnl)]
  · intro idx hge hidx hdec
    simp only [roundTrip]
    rw [if_neg (not_lt.mpr hge), hidx]
    simp only []
    rw [hdec]
  · intro idx meta hge hidx hdec hoff
    simp only [roundTrip]
    rw [if_neg (not_lt.mpr hge), hidx]
    simp only []
    rw [hdec]
    simp only []
    rw [if_neg (not_lt.mpr hoff)]

/-- Witness for `replay_roundTrip_spec`: a concrete well-formed record file
whose header decodes, with the response parsed from offset
`2048 + 10 + 20 + 1`. -/
theorem replay_roundTrip_spec_witness :
    HeaderLen ≤ fileW.length
    ∧ (fileW.take HeaderLen).findIdx? (fun c => c == '\n') = Option.some (HeaderLen - 1)
    ∧ decodeW ((fileW.take HeaderLen).take (HeaderLen - 1))
        = Option.some ⟨"LLM_PROXY_V2", 10, 20, 5, 7⟩
    ∧ (0 : Int) ≤ (HeaderLen : Int) + (10 : Int) + (20 : Int) + 1
    ∧ roundTrip decodeW rrW fileW =
        (match rrW (fileW.drop
            ((HeaderLen : Int) + (10 : Int) + (20 : Int) + 1).toNat) with
         | Option.none => Except.error "replay: failed to parse http response"
         | Option.some resp => Except.ok resp) := by
  have h2047 : HeaderLen - 1 = 2047 := rfl
  have hJlen : hdrJsonW.length ≤ HeaderLen - 1 := by decide
  have hblock := buildFinalBlock_short hJlen
  have htake : fileW.take HeaderLen = buildFinalBlock hdrJsonW := by
    simp only [fileW]
    exact List.take_left' (length_buildFinalBlock hdrJsonW)
  have hlenW : HeaderLen ≤ fileW.length := by
    simp only [fileW, List.length_append, length_buildFinalBlock]
    omega
  have hreplen : (hdrJsonW ++ List.replicate (HeaderLen - 1 - hdrJsonW.length) ' ').length
      = HeaderLen - 1 := by
    simp only [List.length_append, List.length_replicate]
    omega
  have hall : ∀ x ∈ hdrJsonW ++ List.replicate (HeaderLen - 1 - hdrJsonW.length) ' ',
      (x == '\n') = false := by
    intro x hx
    rcases List.mem_append.mp hx with hx1 | hx2
    · exact (by decide : ∀ x ∈ hdrJsonW, (x == '\n') = false) x hx1
    · rw [(List.mem_replicate.mp hx2).2]
      rfl
  have hidx : (fileW.take HeaderLen).findIdx? (fun c => c == '\n')
      = Option.some (HeaderLen - 1) := by
    rw [htake, hblock, findIdx_append_none _ _ _ 0 hall]
    simp only [List.findIdx?]
    rw [if_pos (by rfl)]
    rw [Nat.zero_add, hreplen]
  have htake2 : (fileW.take HeaderLen).take (HeaderLen - 1)
      = hdrJsonW ++ List.replicate (HeaderLen - 1 - hdrJsonW.length) ' ' := by
    rw [htake, hblock]
    exact List.take_left' hreplen
  have hdec : decodeW ((fileW.take HeaderLen).take (HeaderLen - 1))
      = Option.some ⟨"LLM_PROXY_V2", 10, 20, 5, 7⟩ := by
    rw [htake2]
    simp only [decodeW]
    rw [if_pos (by rw [h2047])]
  have hoff : (0 : Int) ≤ (HeaderLen : Int) + (10 : Int) + (20 : Int) + 1 := by decide
  exact ⟨hlenW, hidx, hdec, hoff,
    (replay_roundTrip_spec decodeW rrW fileW).2.2.2 (HeaderLen - 1)
      ⟨"LLM_PROXY_V2", 10, 20, 5, 7⟩ hlenW hidx hdec hoff⟩

/-! ## The SSE sniffer: line splitting -/

theorem splitLines_no_newline (l : List Char) (h : '\n' ∉ l) : splitLines l = ([], l) := by
  induction l with
  | nil => rfl
  | cons b t ih =>
    have hb : ¬ b = '\n' := fun hh => h (by rw [hh]; exact List.mem_cons_self '\n' t)
    have ht : '\n' ∉ t := fun hh => h (List.mem_cons_of_mem b hh)
    simp only [splitLines]
    rw [if_neg hb, ih ht]

theorem splitLines_nil_first (l : List Char) (h : (splitLines l).1 = []) :
    (splitLines l).2 = l := by
  induction l with
  | nil => rfl
  | cons b t ih =>
    by_cases hb : b = '\n'
    · exfalso
      simp only [splitLines] at h
      rw [if_pos hb] at h
      simp at h
    · simp only [splitLines] at h ⊢
      rw [if_neg hb] at h ⊢
      cases hsp : (splitLines t).1 with
      | nil =>
        simp only []
        rw [ih hsp]
      | cons l0 ls =>
        rw [hsp] at h
        simp at h

theorem splitLines_rest_no_newline (l : List Char) : '\n' ∉ (splitLines l).2 := by
  induction l with
  | nil => simp [splitLines]
  | cons b t ih =>
    by_cases hb : b = '\n'
    · simp only [splitLines]
      rw [if_pos hb]
      exact ih
    · simp only [splitLines]
      rw [if_neg hb]
      cases hsp : (splitLines t).1 with
      | nil =>
        simp only []
        intro hmem
        rcases List.mem_cons.mp hmem with h1 | h2
        · exact hb h1.symm
        · exact ih h2
      | cons l0 ls =>
        simp only []
        exact ih

theorem splitLines_append (a b : List Char) :
    splitLines (a ++ b) =
      ((splitLines a).1 ++ (splitLines ((splitLines a).2 ++ b)).1,
       (splitLines ((splitLines a).2 ++ b)).2) := by
  induction a with
  | nil => simp [splitLines]
  | cons x a' ih =>
    by_cases hx : x = '\n'
    · simp only [List.cons_append, splitLines, List.append_eq]
      rw [if_pos hx, if_pos hx, ih]
      simp [List.cons_append]
    · simp only [List.cons_append, splitLines, List.append_eq]
      rw [if_neg hx, if_neg hx]
      cases hsp : (splitLines a').1 with
      | nil =>
        have hra : (splitLines a').2 = a' := splitLines_nil_first a' hsp
        rw [hra]
        simp only [List.nil_append]
        simp only [splitLines, List.append_eq]
        rw [if_neg hx]
      | cons l0 ls =>
        rw [ih, hsp]
        simp [List.cons_append, List.append_assoc]

/-! ## The SSE sniffer: last usage wins -/

theorem stepLine_char (dec : List Char → Option UsageInfo)
    (hdec : ∀ s u, dec s = Option.some u → containsSub usageNeedle s = true)
    (u : UsageInfo) (line : List Char) :
    stepLine dec u line = if qualifiesLine dec line = true then usageOfLine dec line else u := by
  by_cases hq : qualifiesLine dec line = true
  · rw [if_pos hq]
    simp only [qualifiesLine, Bool.and_eq_true] at hq
    obtain ⟨h1, h2⟩ := hq
    cases hd : dec (trimSpace (line.drop 5)) with
    | none =>
      rw [hd] at h2
      simp at h2
    | some u' =>
      rw [hd] at h2
      simp only [] at h2
      have hpos : 0 < u'.totalTokens := of_decide_eq_true h2
      have hcont : containsSub usageNeedle line = true :=
        containsSub_of_trim_drop 5 (hdec _ _ hd)
      simp [stepLine, hcont, h1, hd, hpos, usageOfLine]
  · rw [if_neg hq]
    simp only [stepLine]
    by_cases hc : containsSub usageNeedle line = false
    · rw [if_pos hc]
    · rw [if_neg hc]
      by_cases hs : startsWithL dataNeedle line = true
      · cases hd : dec (trimSpace (line.drop 5)) with
        | none => simp [hs, hd]
        | some u' =>
          by_cases hpos : 0 < u'.totalTokens
          · exfalso
            apply hq
            simp [qualifiesLine, hs, hd, hpos]
          · simp [hs, hd, hpos]
      · simp [hs]

theorem foldl_if_last (q : List Char → Bool) (f : List Char → UsageInfo)
    (lines : List (List Char)) (u : UsageInfo) :
    lines.foldl (fun acc l => if q l = true then f l else acc) u =
      ((lines.filter q).getLast?).elim u f := by
  induction lines generalizing u with
  | nil => rfl
  | cons l ls ih =>
    rw [List.foldl_cons, ih]
    by_cases hq : q l = true
    · cases hlast : (ls.filter q).getLast? with
      | none =>
        have hnil : ls.filter q = [] := List.getLast?_eq_none_iff.mp hlast
        simp [List.filter_cons, hq, hnil]
      | some x =>
        have hcons : (l :: ls.filter q).getLast? = Option.some x := by
          cases hfq : ls.filter q with
          | nil =>
            rw [hfq] at hlast
            simp at hlast
          | cons y ys =>
            rw [hfq] at hlast
            rw [List.getLast?_cons_cons]
            exact hlast
        simp [List.filter_cons, hq, hcons, hlast]
    · simp [List.filter_cons, hq]

theorem foldl_stepLine_eq (dec : List Char → Option UsageInfo)
    (hdec : ∀ s u, dec s = Option.some u → containsSub usageNeedle s = true)
    (lines : List (List Char)) (u : UsageInfo) :
    lines.foldl (stepLine dec) u =
      ((lines.filter (qualifiesLine dec)).getLast?).elim u (usageOfLine dec) := by
  rw [List.foldl_ext (stepLine dec)
    (fun acc l => if qualifiesLine dec l = true then usageOfLine dec l else acc) u
    (fun acc l _ => stepLine_char dec hdec acc l)]
  exact foldl_if_last (qualifiesLine dec) (usageOfLine dec) lines u

theorem processChunk_no_overflow (dec : List Char → Option UsageInfo)
    (buf chunk : List Char) (u : UsageInfo)
    (h : (buf ++ chunk).length ≤ 65536) :
    processChunk dec ⟨buf, u⟩ chunk =
      ⟨(splitLines (buf ++ chunk)).2,
       (splitLines (buf ++ chunk)).1.foldl (stepLine dec) u⟩ := by
  simp only [processChunk]
  rw [if_neg (not_lt.mpr h)]

theorem runSniff_fold (dec : List Char → Option UsageInfo) (chunks : List (List Char))
    (buf : List Char) (u : UsageInfo)
    (hnl : '\n' ∉ buf) (hov : noOverflow buf chunks = true) :
    chunks.foldl (processChunk dec) ⟨buf, u⟩ =
      ⟨(splitLines (buf ++ chunks.flatten)).2,
       (splitLines (buf ++ chunks.flatten)).1.foldl (stepLine dec) u⟩ := by
  induction chunks generalizing buf u with
  | nil =>
    simp only [List.foldl_nil, List.flatten_nil, List.append_nil]
    rw [splitLines_no_newline buf hnl]
    rfl
  | cons c cs ih =>
    simp only [noOverflow, Bool.and_eq_true, decide_eq_true_eq] at hov
    obtain ⟨hlen, hov2⟩ := hov
    rw [List.foldl_cons,
      processChunk_no_overflow dec buf c u (by rw [List.length_append]; exact hlen)]
    rw [ih _ _ (splitLines_rest_no_newline _) hov2]
    have hsa := splitLines_append (buf ++ c) cs.flatten
    simp only [List.flatten_cons, ← List.append_assoc]
    rw [hsa]
    simp [List.foldl_append]

/-- C5 (amended): as long as no chunk overflows the sniffer's 64 KiB line
buffer, the final recorded usage equals, in its entirety, the usage object
of the LAST complete SSE `data:` line whose payload decodes to a usage with
`total_tokens > 0` (and the zero value when there is no such line): lines
whose usage is absent or non-positive never modify the destination. `dec`
is any decoder that only succeeds on text containing the literal
`"usage"` (which Go's `json.Unmarshal` output for a `usage` member always
does). -/
theorem sniffStream_last_usage_wins (dec : List Char → Option UsageInfo)
    (chunks : List (List Char))
    (hdec : ∀ s u, dec s = Option.some u → containsSub usageNeedle s = true)
    (hov : noOverflow [] chunks = true) :
    (runSniff dec chunks).usage =
      (((splitLines chunks.flatten).1.filter (qualifiesLine dec)).getLast?).elim
        UsageInfo.zero (usageOfLine dec) := by
  unfold runSniff
  rw [runSniff_fold dec chunks [] UsageInfo.zero (by simp) hov]
  simp only [List.nil_append]
  exact foldl_stepLine_eq dec hdec _ _

theorem stepLine_not_data (dec : List Char → Option UsageInfo) (u : UsageInfo)
    (line : List Char) (hs : startsWithL dataNeedle line = false) :
    stepLine dec u line = u := by
  simp only [stepLine]
  by_cases hc : containsSub usageNeedle line = false
  · rw [if_pos hc]
  · rw [if_neg hc]
    simp [hs]

theorem splitLines_line (a : List Char) (h : '\n' ∉ a) :
    splitLines (a ++ ('\n' :: [])) = ([a], []) := by
  induction a with
  | nil => simp [splitLines]
  | cons x t ih =>
    have hx : ¬ x = '\n' := fun hh => h (by rw [hh]; exact List.mem_cons_self _ _)
    have ht : '\n' ∉ t := fun hh => h (List.mem_cons_of_mem x hh)
    simp only [List.cons_append, splitLines, List.append_eq]
    rw [if_neg hx, ih ht]

theorem dropWhile_replicate (p : Char → Bool) (c : Char) (n : Nat) (l : List Char)
    (hc : p c = true) :
    (List.replicate n c ++ l).dropWhile p = l.dropWhile p := by
  induction n with
  | zero => simp
  | succ m ih =>
    rw [List.replicate_succ, List.cons_append, List.dropWhile_cons, if_pos hc, ih]

/-- Witness for `sniffStream_last_usage_wins`: two usage-bearing `data:`
lines split across chunk boundaries; the second one (total 7) wins. -/
theorem sniffStream_last_usage_wins_witness :
    (∀ s u, decW s = Option.some u → containsSub usageNeedle s = true)
    ∧ noOverflow [] chunksW = true
    ∧ (runSniff decW chunksW).usage =
        (((splitLines chunksW.flatten).1.filter (qualifiesLine decW)).getLast?).elim
          UsageInfo.zero (usageOfLine decW)
    ∧ (runSniff decW chunksW).usage = ⟨3, 4, 7, Option.none⟩ := by
  have hdec : ∀ s u, decW s = Option.some u → containsSub usageNeedle s = true := by
    intro s u h
    simp only [decW] at h
    by_cases h1 : s = usageJsonW1
    · rw [h1]
      decide
    · rw [if_neg h1] at h
      by_cases h2 : s = usageJsonW2
      · rw [h2]
        decide
      · rw [if_neg h2] at h
        exact absurd h (by simp)
  exact ⟨hdec, by decide,
    sniffStream_last_usage_wins decW chunksW hdec (by decide), by decide⟩

theorem processChunk_overflow (dec : List Char → Option UsageInfo)
    (buf chunk : List Char) (u : UsageInfo)
    (h : 65536 < (buf ++ chunk).length) :
    processChunk dec ⟨buf, u⟩ chunk =
      ⟨(splitLines ((buf ++ chunk).drop ((buf ++ chunk).length - 65536))).2,
       (splitLines ((buf ++ chunk).drop ((buf ++ chunk).length - 65536))).1.foldl
         (stepLine dec) u⟩ := by
  simp only [processChunk]
  rw [if_pos h]

/-- C5 counterexample: a single SSE `data:` line longer than 64 KiB whose
payload decodes to usage `total_tokens = 1`. It is the last (only)
qualifying `data:` line of the stream, yet after the 64 KiB buffer
truncation the sniffer never applies it: the final usage stays zero, not
the line's usage — refuting the claim as stated for over-long lines. -/
theorem sniffStream_claim_counterexample :
    (splitLines (List.flatten [chunkCE])).1 = [lineCE]
    ∧ qualifiesLine decCE lineCE = true
    ∧ usageOfLine decCE lineCE = ⟨0, 0, 1, Option.none⟩
    ∧ (runSniff decCE [chunkCE]).usage ≠ ⟨0, 0, 1, Option.none⟩ := by
  have hnlJson : '\n' ∉ usageJsonCE := by decide
  have hnlLine : '\n' ∉ lineCE := by
    intro hmem
    simp only [lineCE, List.mem_append] at hmem
    rcases hmem with (h1 | h2) | h3
    · exact absurd h1 (by decide)
    · exact absurd ((List.mem_replicate.mp h2).2) (by decide)
    · exact hnlJson h3
  have hsplit : splitLines chunkCE = ([lineCE], []) := by
    simp only [chunkCE]
    exact splitLines_line lineCE hnlLine
  have hdrop5 : lineCE.drop 5 = List.replicate 65601 ' ' ++ usageJsonCE := by
    simp only [lineCE, List.cons_append, List.nil_append, List.drop_succ_cons,
      List.drop_zero]
    rw [show List.replicate 65601 ' ' = ' ' :: List.replicate 65600 ' ' from rfl]
    rw [List.cons_append]
  have htrim : trimSpace (lineCE.drop 5) = usageJsonCE := by
    rw [hdrop5]
    simp only [trimSpace, trimLeftSpc]
    rw [dropWhile_replicate isSpc ' ' 65601 usageJsonCE (by decide)]
    rw [show usageJsonCE.dropWhile isSpc = usageJsonCE from by decide]
    show trimRightSpc usageJsonCE = usageJsonCE
    decide
  have hqual : qualifiesLine decCE lineCE = true := by
    simp only [qualifiesLine, htrim]
    rw [show decCE usageJsonCE = Option.some ⟨0, 0, 1, Option.none⟩ from by
      simp [decCE]]
    simp only [Bool.and_eq_true]
    constructor
    · simp [lineCE, startsWithL, dataNeedle, List.cons_append]
    · decide
  have husage : usageOfLine decCE lineCE = ⟨0, 0, 1, Option.none⟩ := by
    simp only [usageOfLine, htrim]
    rw [show decCE usageJsonCE = Option.some ⟨0, 0, 1, Option.none⟩ from by
      simp [decCE]]
    rfl
  have hrestruct : chunkCE =
      (('d' :: 'a' :: 't' :: 'a' :: ':' :: ' ' :: []) ++ List.replicate 133 ' ')
        ++ (List.replicate 65467 ' ' ++ (usageJsonCE ++ ('\n' :: []))) := by
    simp only [chunkCE, lineCE]
    rw [show (65600 : Nat) = 133 + 65467 from rfl, List.replicate_add]
    simp only [List.append_assoc]
  have hlen139 : (('d' :: 'a' :: 't' :: 'a' :: ':' :: ' ' :: [])
      ++ List.replicate 133 ' ').length = 139 := by
    simp [List.length_append, List.length_replicate]
  have hclen : chunkCE.length = 65675 := by
    show ((('d' :: 'a' :: 't' :: 'a' :: ':' :: ' ' :: []) ++ List.replicate 65600 ' '
        ++ usageJsonCE) ++ ('\n' :: [])).length = 65675
    rw [List.length_append, List.length_append, List.length_append,
      List.length_replicate]
    rw [show usageJsonCE.length = 68 from by decide]
    rw [show (('d' :: 'a' :: 't' :: 'a' :: ':' :: ' ' :: []) : List Char).length = 6 from
      rfl]
    rw [show (('\n' :: []) : List Char).length = 1 from rfl]
  have hdrop139 : chunkCE.drop 139 =
      List.replicate 65467 ' ' ++ (usageJsonCE ++ ('\n' :: [])) := by
    rw [hrestruct]
    exact List.drop_left' hlen139
  have hnl2 : '\n' ∉ List.replicate 65467 ' ' ++ usageJsonCE := by
    intro hmem
    rcases List.mem_append.mp hmem with h1 | h2
    · exact absurd ((List.mem_replicate.mp h1).2) (by decide)
    · exact hnlJson h2
  have hsplit2 : splitLines (List.replicate 65467 ' ' ++ (usageJsonCE ++ ('\n' :: [])))
      = ([List.replicate 65467 ' ' ++ usageJsonCE], []) := by
    rw [← List.append_assoc]
    exact splitLines_line _ hnl2
  have hstep : stepLine decCE UsageInfo.zero (List.replicate 65467 ' ' ++ usageJsonCE)
      = UsageInfo.zero := by
    apply stepLine_not_data
    rw [show List.replicate 65467 ' ' = ' ' :: List.replicate 65466 ' ' from rfl,
      List.cons_append]
    simp only [dataNeedle, startsWithL]
    rw [show ('d' == ' ') = false from by decide, Bool.false_and]
  have hrun : (runSniff decCE [chunkCE]).usage = UsageInfo.zero := by
    have h1 : runSniff decCE [chunkCE] = processChunk decCE ⟨[], UsageInfo.zero⟩ chunkCE :=
      rfl
    have hov : 65536 < (([] : List Char) ++ chunkCE).length := by
      rw [List.nil_append, hclen]
      norm_num
    rw [h1, processChunk_overflow decCE [] chunkCE UsageInfo.zero hov]
    simp only [List.nil_append, hclen]
    rw [show (65675 : Nat) - 65536 = 139 from rfl, hdrop139, hsplit2]
    simp only [List.foldl_cons, List.foldl_nil]
    exact hstep
  refine ⟨?_, hqual, husage, ?_⟩
  · rw [show List.flatten [chunkCE] = chunkCE from by simp]
    rw [hsplit]
  · rw [hrun]
    decide
